import Mathlib

/-!
Verification of the recurrence subsystem of a desktop task-tracking
application (source file `recurrence_system.py`).  Date-times are modelled
with explicit year/month/day/hour/minute/second fields, mirroring the
component representation of Python `datetime`; day arithmetic is modelled
by iterated single-day calendar steps; the recurrence computations are
direct translations of `RecurrencePattern.get_next_occurrence`,
`RecurrencePattern.to_dict`, `RecurrencePattern.from_dict` and
`RecurrenceSystem.handle_completed_task`.  Integer fields that the
surrounding application only ever populates with non-negative values
(`interval`, weekday codes, occurrence counts) are modelled with `ℕ`.
-/

namespace TaskApp

/-- Leap-year test used by `RecurrencePattern._days_in_month`:
`year % 4 == 0 and (year % 100 != 0 or year % 400 == 0)`. -/
def isLeapYear (y : ℕ) : Bool :=
  decide (y % 4 = 0 ∧ (y % 100 ≠ 0 ∨ y % 400 = 0))

/-- Embedding of `RecurrencePattern._days_in_month`. -/
def days_in_month (y m : ℕ) : ℕ :=
  if m = 2 then (if isLeapYear y then 29 else 28)
  else if m = 4 ∨ m = 6 ∨ m = 9 ∨ m = 11 then 30
  else 31

/-- A calendar date, as the component view of a Python `datetime.date`. -/
structure Date where
  year : ℕ
  month : ℕ
  day : ℕ
  deriving DecidableEq, Repr

/-- A date-time, as the component view of a Python `datetime.datetime`
(microseconds are not used by the recurrence subsystem and are omitted). -/
structure DateTime where
  date : Date
  hour : ℕ
  minute : ℕ
  second : ℕ
  deriving DecidableEq, Repr

/-- The ordering of Python `datetime.date` values: lexicographic on
(year, month, day). -/
def Date.Lt (a b : Date) : Prop :=
  a.year < b.year ∨ (a.year = b.year ∧
    (a.month < b.month ∨ (a.month = b.month ∧ a.day < b.day)))

instance (a b : Date) : Decidable (Date.Lt a b) := by
  unfold Date.Lt; infer_instance

/-- Non-strict ordering of dates. -/
def Date.Le (a b : Date) : Prop := Date.Lt a b ∨ a = b

instance (a b : Date) : Decidable (Date.Le a b) := by
  unfold Date.Le; infer_instance

/-- The ordering of Python `datetime.datetime` values: lexicographic on
(date, hour, minute, second). -/
def DateTime.Lt (a b : DateTime) : Prop :=
  Date.Lt a.date b.date ∨ (a.date = b.date ∧
    (a.hour < b.hour ∨ (a.hour = b.hour ∧
      (a.minute < b.minute ∨ (a.minute = b.minute ∧ a.second < b.second)))))

instance (a b : DateTime) : Decidable (DateTime.Lt a b) := by
  unfold DateTime.Lt; infer_instance

/-- A date is valid when its components are in the ranges that Python
`datetime` enforces on construction (the year upper bound is checked
separately where it matters). -/
def Date.Valid (d : Date) : Prop :=
  1 ≤ d.year ∧ 1 ≤ d.month ∧ d.month ≤ 12 ∧ 1 ≤ d.day ∧
    d.day ≤ days_in_month d.year d.month

instance (d : Date) : Decidable (Date.Valid d) := by
  unfold Date.Valid; infer_instance

/-- A date-time is valid when its date is valid and its time fields are in
range. -/
def DateTime.Valid (t : DateTime) : Prop :=
  t.date.Valid ∧ t.hour < 24 ∧ t.minute < 60 ∧ t.second < 60

instance (t : DateTime) : Decidable (DateTime.Valid t) := by
  unfold DateTime.Valid; infer_instance

/-- Days elapsed before January 1 of year `y` in the proleptic Gregorian
calendar, counted from the epoch day 0001-01-01 = ordinal 1. -/
def daysBeforeYear (y : ℕ) : ℕ :=
  365 * (y - 1) + (y - 1) / 4 + (y - 1) / 400 - (y - 1) / 100

/-- Days elapsed in year `y` before the first day of month `m`. -/
def daysBeforeMonth (y : ℕ) : ℕ → ℕ
  | 0 => 0
  | 1 => 0
  | m + 2 => daysBeforeMonth y (m + 1) + days_in_month y (m + 1)

/-- Proleptic Gregorian ordinal of a date (0001-01-01 has ordinal 1),
matching Python `date.toordinal`. -/
def Date.toOrd (d : Date) : ℕ :=
  daysBeforeYear d.year + daysBeforeMonth d.year d.month + d.day

/-- The calendar day after `d`. -/
def Date.next (d : Date) : Date :=
  if d.day < days_in_month d.year d.month then ⟨d.year, d.month, d.day + 1⟩
  else if d.month < 12 then ⟨d.year, d.month + 1, 1⟩
  else ⟨d.year + 1, 1, 1⟩

/-- The calendar day before `d`. -/
def Date.prev (d : Date) : Date :=
  if 1 < d.day then ⟨d.year, d.month, d.day - 1⟩
  else if 1 < d.month then ⟨d.year, d.month - 1, days_in_month d.year (d.month - 1)⟩
  else ⟨d.year - 1, 12, 31⟩

/-- `k` calendar days after `d`; models `+ timedelta(days=k)` on the date
component for `k ≥ 0`. -/
def Date.addDays (d : Date) : ℕ → Date
  | 0 => d
  | k + 1 => (d.addDays k).next

/-- `k` calendar days before `d`; models `- timedelta(days=k)` on the date
component for `k ≥ 0`. -/
def Date.subDays (d : Date) : ℕ → Date
  | 0 => d
  | k + 1 => (d.subDays k).prev

/-- `datetime + timedelta(days=k)` for `k ≥ 0`: the time of day is kept. -/
def DateTime.addDays (t : DateTime) (k : ℕ) : DateTime :=
  ⟨t.date.addDays k, t.hour, t.minute, t.second⟩

/-- `datetime - timedelta(days=k)` for `k ≥ 0`: the time of day is kept. -/
def DateTime.subDays (t : DateTime) (k : ℕ) : DateTime :=
  ⟨t.date.subDays k, t.hour, t.minute, t.second⟩

/-- `datetime + timedelta(days=k)` for a possibly negative day count. -/
def DateTime.addDaysZ (t : DateTime) (k : ℤ) : DateTime :=
  if 0 ≤ k then t.addDays k.toNat else t.subDays (-k).toNat

/-- Seconds elapsed since midnight. -/
def DateTime.timeSecs (t : DateTime) : ℕ :=
  t.hour * 3600 + t.minute * 60 + t.second

/-- Rebuild a date-time from a date and seconds since midnight. -/
def DateTime.ofSecs (d : Date) (s : ℕ) : DateTime :=
  ⟨d, s / 3600, s % 3600 / 60, s % 60⟩

/-- `datetime - timedelta(seconds=k)`, borrowing days when the subtraction
crosses midnight. -/
def DateTime.subSeconds (t : DateTime) (k : ℕ) : DateTime :=
  if k ≤ t.timeSecs then DateTime.ofSecs t.date (t.timeSecs - k)
  else
    let borrow := (k - t.timeSecs + 86399) / 86400
    DateTime.ofSecs (t.date.subDays borrow) (borrow * 86400 + t.timeSecs - k)

/-- `.weekday()` of Python `datetime`: Monday is 0, Sunday is 6.
0001-01-01 (ordinal 1) was a Monday. -/
def DateTime.weekday (t : DateTime) : ℕ :=
  (t.date.toOrd + 6) % 7

/-- `RecurrencePattern.NONE`. -/
def NONE : String := "None"

/-- `RecurrencePattern.DAILY`. -/
def DAILY : String := "Daily"

/-- `RecurrencePattern.WEEKLY`. -/
def WEEKLY : String := "Weekly"

/-- `RecurrencePattern.MONTHLY`. -/
def MONTHLY : String := "Monthly"

/-- `RecurrencePattern.CUSTOM`. -/
def CUSTOM : String := "Custom"

/-- Embedding of the `RecurrencePattern` class state: `pattern_type` is a
string tag, `weekdays` a list of integer day codes, `end_date` an optional
date-time and `occurrences` an optional remaining count. -/
structure RecurrencePattern where
  pattern_type : String
  interval : ℕ
  weekdays : List ℕ
  end_date : Option DateTime
  occurrences : Option ℕ
  deriving DecidableEq, Repr

/-- `RecurrencePattern()` built with all constructor defaults. -/
def RecurrencePattern.default : RecurrencePattern :=
  ⟨NONE, 1, [], none, none⟩

/-- The dictionary produced by `RecurrencePattern.to_dict` and consumed by
`RecurrencePattern.from_dict`, with its five fixed keys as typed fields;
`end_date` holds the ISO-format string or `None`. -/
structure RecurrenceDict where
  pattern_type : String
  interval : ℕ
  weekdays : List ℕ
  end_date : Option String
  occurrences : Option ℕ
  deriving DecidableEq, Repr

/-- One decimal digit character: the character of `n % 10`. -/
def digitChar (n : ℕ) : Char :=
  match n % 10 with
  | 0 => '0' | 1 => '1' | 2 => '2' | 3 => '3' | 4 => '4'
  | 5 => '5' | 6 => '6' | 7 => '7' | 8 => '8' | _ => '9'

/-- Two-digit zero-padded decimal rendering (`%02d`) of `n < 100`. -/
def pad2 (n : ℕ) : List Char := [digitChar (n / 10), digitChar n]

/-- Four-digit zero-padded decimal rendering (`%04d`) of `n < 10000`. -/
def pad4 (n : ℕ) : List Char :=
  [digitChar (n / 1000), digitChar (n / 100), digitChar (n / 10), digitChar n]

/-- `datetime.isoformat()` for a date-time without microseconds:
`YYYY-MM-DDTHH:MM:SS`. -/
def DateTime.isoformat (t : DateTime) : String :=
  String.mk (pad4 t.date.year ++ ['-'] ++ pad2 t.date.month ++ ['-'] ++
    pad2 t.date.day ++ ['T'] ++ pad2 t.hour ++ [':'] ++ pad2 t.minute ++
    [':'] ++ pad2 t.second)

/-- Value of a decimal digit character, `none` on a non-digit. -/
def readDigit (c : Char) : Option ℕ :=
  if 48 ≤ c.toNat ∧ c.toNat ≤ 57 then some (c.toNat - 48) else none

/-- Two decimal digits read as a number. -/
def read2 (a b : Char) : Option ℕ :=
  match readDigit a, readDigit b with
  | some x, some y => some (x * 10 + y)
  | _, _ => none

/-- Core of `datetime.fromisoformat` on the character list of the input:
accepts exactly `YYYY-MM-DDTHH:MM:SS` and applies the range validation of
the `datetime` constructor. -/
def parseISO (l : List Char) : Option DateTime :=
  match l with
  | [y1, y2, y3, y4, s1, m1, m2, s2, d1, d2, s3, h1, h2, s4, n1, n2, s5, c1, c2] =>
      if s1 = '-' ∧ s2 = '-' ∧ s3 = 'T' ∧ s4 = ':' ∧ s5 = ':' then
        match read2 y1 y2, read2 y3 y4, read2 m1 m2, read2 d1 d2,
              read2 h1 h2, read2 n1 n2, read2 c1 c2 with
        | some yh, some yl, some mo, some dy, some hr, some mi, some sc =>
            if (DateTime.mk ⟨yh * 100 + yl, mo, dy⟩ hr mi sc).Valid ∧
                yh * 100 + yl ≤ 9999 then
              some ⟨⟨yh * 100 + yl, mo, dy⟩, hr, mi, sc⟩
            else none
        | _, _, _, _, _, _, _ => none
      else none
  | _ => none

/-- `datetime.fromisoformat` wrapped in the `try/except` of
`RecurrencePattern.from_dict`: `none` on any parse or validation failure. -/
def fromisoformat (s : String) : Option DateTime := parseISO s.toList

/-- Embedding of `RecurrencePattern.to_dict`. -/
def RecurrencePattern.to_dict (p : RecurrencePattern) : RecurrenceDict :=
  ⟨p.pattern_type, p.interval, p.weekdays,
    p.end_date.map DateTime.isoformat, p.occurrences⟩

/-- Embedding of `RecurrencePattern.from_dict`; the argument `none` models
a missing or empty (falsy) dictionary. -/
def RecurrencePattern.from_dict (data : Option RecurrenceDict) : RecurrencePattern :=
  match data with
  | none => RecurrencePattern.default
  | some d =>
      let ed : Option DateTime :=
        match d.end_date with
        | some s => if s = "" then none else fromisoformat s
        | none => none
      ⟨d.pattern_type, d.interval, d.weekdays, ed, d.occurrences⟩

/-- The `while month > 12: year += 1; month -= 12` normalisation loop of
the Monthly branch of `get_next_occurrence`, with a structural fuel
argument; every iteration lowers the month by 12, so fuel `m` always
suffices. -/
def normalizeMonthFuel : ℕ → ℕ → ℕ → ℕ × ℕ
  | 0, y, m => (y, m)
  | f + 1, y, m => if 12 < m then normalizeMonthFuel f (y + 1) (m - 12) else (y, m)

/-- The `while month > 12` loop of the Monthly branch. -/
def normalizeMonth (y m : ℕ) : ℕ × ℕ := normalizeMonthFuel m y m

/-- Lines 94–102 of `get_next_occurrence`: scan the sorted weekday list
for the first entry strictly greater than the current weekday
(`sorted(self.weekdays)` is modelled by insertion sort, which produces the
same ascending list). -/
def findNextWeekday (ws : List ℕ) (cw : ℕ) : Option ℕ :=
  (ws.insertionSort (fun a b => a ≤ b)).find? (fun w => decide (cw < w))

/-- The candidate date computed by lines 85–137 of
`RecurrencePattern.get_next_occurrence`, before the end-date post-check;
`none` is the `else: return None` branch for unrecognised pattern kinds. -/
def RecurrencePattern.next_candidate (p : RecurrencePattern) (fromDate : DateTime) :
    Option DateTime :=
  if p.pattern_type = DAILY then
    some (fromDate.addDays p.interval)
  else if p.pattern_type = WEEKLY then
    if p.weekdays = [] then
      some (fromDate.addDays (7 * p.interval))
    else
      let cw := fromDate.weekday
      match findNextWeekday p.weekdays cw with
      | some w => some (fromDate.addDays (w - cw))
      | none =>
          let daysToNextWeek : ℤ := 7 - (cw : ℤ)
          let base : ℤ := daysToNextWeek + ((p.interval : ℤ) - 1) * 7
          let daysToAdd : ℤ :=
            match p.weekdays.min? with
            | some w => base + (w : ℤ)
            | none => base
          some (fromDate.addDaysZ daysToAdd)
  else if p.pattern_type = MONTHLY then
    let ym := normalizeMonth fromDate.date.year (fromDate.date.month + p.interval)
    let day := min fromDate.date.day (days_in_month ym.1 ym.2)
    some ⟨⟨ym.1, ym.2, day⟩, fromDate.hour, fromDate.minute, fromDate.second⟩
  else if p.pattern_type = CUSTOM then
    some (fromDate.addDays p.interval)
  else
    none

/-- Line 82 of `get_next_occurrence`:
`self.end_date and from_date.date() >= self.end_date.date()`. -/
def RecurrencePattern.endPreBlocks (p : RecurrencePattern) (fromDate : DateTime) : Bool :=
  match p.end_date with
  | some e => decide (Date.Le e.date fromDate.date)
  | none => false

/-- Line 140 of `get_next_occurrence`:
`self.end_date and next_date.date() > self.end_date.date()`. -/
def RecurrencePattern.endPostBlocks (p : RecurrencePattern) (nd : DateTime) : Bool :=
  match p.end_date with
  | some e => decide (Date.Lt e.date nd.date)
  | none => false

/-- Embedding of `RecurrencePattern.get_next_occurrence`. -/
def RecurrencePattern.get_next_occurrence (p : RecurrencePattern) (fromDate : DateTime) :
    Option DateTime :=
  if p.pattern_type = NONE then none
  else if p.endPreBlocks fromDate then none
  else
    match p.next_candidate fromDate with
    | none => none
    | some nd => if p.endPostBlocks nd then none else some nd

/-- A task record (a Python dict): the fields read or written by
`RecurrenceSystem.handle_completed_task` are explicit, every remaining
key/value pair is carried as uninterpreted data in `others` and copied
verbatim.
`recurrence = none` models a missing or empty (falsy) recurrence dict,
`deadline = none` a missing (falsy) deadline, `reminder_offset = none` a
missing offset. -/
structure Task where
  deadline : Option DateTime
  status : String
  completed : Bool
  reminder_offset : Option String
  reminder_time : Option DateTime
  recurrence : Option RecurrenceDict
  others : List (String × String)
  deriving DecidableEq, Repr

/-- The new reminder time of the successor task (lines 494–506 of
`handle_completed_task`); when the offset is missing, falsy, or not one of
the five known strings the copied reminder time is kept. -/
def newReminderTime (task : Task) (nd : DateTime) : Option DateTime :=
  match task.reminder_offset with
  | none => task.reminder_time
  | some ro =>
      if ro ≠ "" ∧ ro ≠ "No Reminder" then
        if ro = "5 minutes before" then some (nd.subSeconds (5 * 60))
        else if ro = "15 minutes before" then some (nd.subSeconds (15 * 60))
        else if ro = "30 minutes before" then some (nd.subSeconds (30 * 60))
        else if ro = "1 hour before" then some (nd.subSeconds 3600)
        else if ro = "1 day before" then some (nd.subDays 1)
        else task.reminder_time
      else task.reminder_time

/-- Embedding of `RecurrenceSystem.handle_completed_task`.  The Boolean is
the return value; the `Option Task` component records the single task (if
any) handed to `self.task_model.add_task`, which appends it to the task
store. -/
def handle_completed_task (task : Task) : Bool × Option Task :=
  if (match task.recurrence with
      | none => true
      | some rd => rd.pattern_type = NONE) then (false, none)
  else
    let recurrence := RecurrencePattern.from_dict task.recurrence
    match task.deadline with
    | none => (false, none)
    | some deadline =>
        match recurrence.get_next_occurrence deadline with
        | none => (false, none)
        | some nd =>
            let newRecurrence : Option RecurrenceDict :=
              match recurrence.occurrences with
              | some n =>
                  if n ≠ 0 then
                    task.recurrence.map (fun rd => { rd with occurrences := some (n - 1) })
                  else task.recurrence
              | none => task.recurrence
            (true, some
              { task with
                deadline := some nd
                status := "Not Started"
                completed := false
                reminder_time := newReminderTime task nd
                recurrence := newRecurrence })

/-! ### Calendar lemmas -/

theorem isLeapYear_iff {y : ℕ} :
    isLeapYear y = true ↔ y % 4 = 0 ∧ (y % 100 ≠ 0 ∨ y % 400 = 0) := by
  simp [isLeapYear]

theorem days_in_month_ge (y m : ℕ) : 28 ≤ days_in_month y m := by
  unfold days_in_month
  repeat' split
  all_goals omega

theorem days_in_month_le (y m : ℕ) : days_in_month y m ≤ 31 := by
  unfold days_in_month
  repeat' split
  all_goals omega

theorem days_in_month_twelve (y : ℕ) : days_in_month y 12 = 31 := by
  simp [days_in_month]

theorem daysBeforeMonth_succ (y : ℕ) {m : ℕ} (h : 1 ≤ m) :
    daysBeforeMonth y (m + 1) = daysBeforeMonth y m + days_in_month y m := by
  match m, h with
  | n + 1, _ => rfl

theorem daysBeforeMonth_thirteen (y : ℕ) :
    daysBeforeMonth y 13 = if isLeapYear y then 366 else 365 := by
  by_cases h : isLeapYear y = true <;>
    simp [daysBeforeMonth, days_in_month, h]

set_option maxHeartbeats 1000000 in
theorem daysBeforeYear_succ {y : ℕ} (h : 1 ≤ y) :
    daysBeforeYear (y + 1) = daysBeforeYear y + (if isLeapYear y then 366 else 365) := by
  by_cases hb : isLeapYear y = true
  · have hl : y % 4 = 0 ∧ (y % 100 ≠ 0 ∨ y % 400 = 0) := isLeapYear_iff.mp hb
    rw [if_pos hb]
    unfold daysBeforeYear
    omega
  · have hl : ¬(y % 4 = 0 ∧ (y % 100 ≠ 0 ∨ y % 400 = 0)) :=
      fun hc => hb (isLeapYear_iff.mpr hc)
    rw [if_neg hb]
    unfold daysBeforeYear
    omega

theorem daysBeforeMonth_mono (y : ℕ) {m m' : ℕ} (h1 : 1 ≤ m) (h : m ≤ m') :
    daysBeforeMonth y m ≤ daysBeforeMonth y m' := by
  induction m' with
  | zero => omega
  | succ n ih =>
      rcases Nat.lt_or_ge m (n + 1) with hlt | hge
      · have hn : 1 ≤ n := by omega
        calc daysBeforeMonth y m ≤ daysBeforeMonth y n := ih (by omega)
          _ ≤ daysBeforeMonth y (n + 1) := by rw [daysBeforeMonth_succ y hn]; omega
      · have : m = n + 1 := by omega
        subst this
        exact le_refl _

theorem daysBeforeYear_mono {y y' : ℕ} (h : y ≤ y') :
    daysBeforeYear y ≤ daysBeforeYear y' := by
  induction y' with
  | zero =>
      have : y = 0 := by omega
      subst this
      exact le_refl _
  | succ n ih =>
      rcases Nat.lt_or_ge y (n + 1) with hlt | hge
      · refine (ih (by omega)).trans ?_
        by_cases hn : 1 ≤ n
        · rw [daysBeforeYear_succ hn]
          omega
        · have hn0 : n = 0 := by omega
          subst hn0
          simp [daysBeforeYear]
      · have : y = n + 1 := by omega
        subst this
        exact le_refl _

theorem Date.toOrd_next {d : Date} (h : d.Valid) : d.next.toOrd = d.toOrd + 1 := by
  obtain ⟨hy, hm1, hm2, hd1, hd2⟩ := h
  unfold Date.next
  split
  · simp only [Date.toOrd]
    omega
  · rename_i hnd
    split
    · rename_i hmlt
      simp only [Date.toOrd, daysBeforeMonth_succ d.year hm1]
      omega
    · rename_i hmge
      have hm : d.month = 12 := by omega
      have h13 : daysBeforeMonth d.year 13 =
          daysBeforeMonth d.year 12 + days_in_month d.year 12 :=
        daysBeforeMonth_succ d.year (by omega)
      have h13v := daysBeforeMonth_thirteen d.year
      have hsucc := daysBeforeYear_succ hy
      have h31 := days_in_month_twelve d.year
      have hz : daysBeforeMonth (d.year + 1) 1 = 0 := rfl
      rw [hm] at hnd hd2
      simp only [Date.toOrd]
      rw [hm]
      omega

theorem Date.valid_next {d : Date} (h : d.Valid) : d.next.Valid := by
  obtain ⟨hy, hm1, hm2, hd1, hd2⟩ := h
  have hge := days_in_month_ge d.year d.month
  have hge2 := days_in_month_ge d.year (d.month + 1)
  have hge3 := days_in_month_ge (d.year + 1) 1
  unfold Date.next
  split
  · exact ⟨hy, hm1, hm2, (by omega : 1 ≤ d.day + 1),
      (by omega : d.day + 1 ≤ days_in_month d.year d.month)⟩
  · split
    · rename_i hmlt
      exact ⟨hy, (by omega : 1 ≤ d.month + 1), (by omega : d.month + 1 ≤ 12),
        le_refl 1, (by omega : 1 ≤ days_in_month d.year (d.month + 1))⟩
    · exact ⟨(by omega : 1 ≤ d.year + 1), le_refl 1, (by omega : (1 : ℕ) ≤ 12),
        le_refl 1, (by omega : 1 ≤ days_in_month (d.year + 1) 1)⟩

theorem Date.addDays_spec {d : Date} (h : d.Valid) (k : ℕ) :
    (d.addDays k).Valid ∧ (d.addDays k).toOrd = d.toOrd + k := by
  induction k with
  | zero => exact ⟨h, rfl⟩
  | succ n ih =>
      refine ⟨Date.valid_next ih.1, ?_⟩
      show (d.addDays n).next.toOrd = d.toOrd + (n + 1)
      rw [Date.toOrd_next ih.1, ih.2]
      omega

theorem Date.valid_addDays {d : Date} (h : d.Valid) (k : ℕ) : (d.addDays k).Valid :=
  (Date.addDays_spec h k).1

theorem Date.toOrd_addDays {d : Date} (h : d.Valid) (k : ℕ) :
    (d.addDays k).toOrd = d.toOrd + k :=
  (Date.addDays_spec h k).2

theorem Date.toOrd_le_year_bound {d : Date} (h : d.Valid) :
    d.toOrd ≤ daysBeforeYear (d.year + 1) := by
  obtain ⟨hy, hm1, hm2, hd1, hd2⟩ := h
  have h1 : daysBeforeMonth d.year d.month + d.day ≤
      daysBeforeMonth d.year (d.month + 1) := by
    rw [daysBeforeMonth_succ d.year hm1]
    omega
  have h2 : daysBeforeMonth d.year (d.month + 1) ≤ daysBeforeMonth d.year 13 :=
    daysBeforeMonth_mono d.year (by omega) (by omega)
  have h3 := daysBeforeMonth_thirteen d.year
  have h4 := daysBeforeYear_succ hy
  simp only [Date.toOrd]
  by_cases hb : isLeapYear d.year = true <;> simp [hb] at h3 h4 <;> omega

theorem Date.toOrd_lt_of_Lt {a b : Date} (ha : a.Valid) (hb : b.Valid)
    (h : Date.Lt a b) : a.toOrd < b.toOrd := by
  have hub := Date.toOrd_le_year_bound ha
  obtain ⟨hay, ham1, ham2, had1, had2⟩ := ha
  obtain ⟨hby, hbm1, hbm2, hbd1, hbd2⟩ := hb
  rcases h with hy | ⟨hy, h2⟩
  · have hmono : daysBeforeYear (a.year + 1) ≤ daysBeforeYear b.year :=
      daysBeforeYear_mono (by omega)
    simp only [Date.toOrd] at *
    omega
  · rcases h2 with hm | ⟨hm, hd⟩
    · have h1 : daysBeforeMonth a.year a.month + a.day ≤
          daysBeforeMonth a.year (a.month + 1) := by
        rw [daysBeforeMonth_succ a.year ham1]
        omega
      have h2' : daysBeforeMonth a.year (a.month + 1) ≤ daysBeforeMonth a.year b.month :=
        daysBeforeMonth_mono a.year (by omega) (by omega)
      simp only [Date.toOrd]
      rw [hy] at h1 h2' ⊢
      omega
    · simp only [Date.toOrd]
      rw [hy, hm]
      omega

theorem Date.lt_or_eq_or_gt (a b : Date) : Date.Lt a b ∨ a = b ∨ Date.Lt b a := by
  obtain ⟨y1, m1, d1⟩ := a
  obtain ⟨y2, m2, d2⟩ := b
  simp only [Date.Lt, Date.mk.injEq]
  omega

theorem Date.Lt_of_toOrd_lt {a b : Date} (ha : a.Valid) (hb : b.Valid)
    (h : a.toOrd < b.toOrd) : Date.Lt a b := by
  rcases Date.lt_or_eq_or_gt a b with h1 | h1 | h1
  · exact h1
  · subst h1
    omega
  · exact absurd (Date.toOrd_lt_of_Lt hb ha h1) (by omega)

theorem DateTime.weekday_lt (t : DateTime) : t.weekday < 7 :=
  Nat.mod_lt _ (by norm_num)

theorem DateTime.weekday_addDays {t : DateTime} (h : t.date.Valid) (k : ℕ) :
    (t.addDays k).weekday = (t.weekday + k) % 7 := by
  show ((t.date.addDays k).toOrd + 6) % 7 = ((t.date.toOrd + 6) % 7 + k) % 7
  rw [Date.toOrd_addDays h k]
  omega

theorem normalizeMonthFuel_spec :
    ∀ f y m, 1 ≤ m → m ≤ 12 + 12 * f →
      1 ≤ (normalizeMonthFuel f y m).2 ∧ (normalizeMonthFuel f y m).2 ≤ 12 ∧
      (normalizeMonthFuel f y m).1 * 12 + (normalizeMonthFuel f y m).2 = y * 12 + m ∧
      y ≤ (normalizeMonthFuel f y m).1 := by
  intro f
  induction f with
  | zero =>
      intro y m h1 h2
      exact ⟨(by omega : 1 ≤ m), (by omega : m ≤ 12),
        (by omega : y * 12 + m = y * 12 + m), le_refl y⟩
  | succ n ih =>
      intro y m h1 h2
      simp only [normalizeMonthFuel]
      split
      · rename_i hgt
        have := ih (y + 1) (m - 12) (by omega) (by omega)
        omega
      · exact ⟨(by omega : 1 ≤ m), (by omega : m ≤ 12),
          (by omega : y * 12 + m = y * 12 + m), le_refl y⟩

theorem normalizeMonth_spec {y : ℕ} (m : ℕ) (h : 1 ≤ m) :
    1 ≤ (normalizeMonth y m).2 ∧ (normalizeMonth y m).2 ≤ 12 ∧
    (normalizeMonth y m).1 * 12 + (normalizeMonth y m).2 = y * 12 + m ∧
    y ≤ (normalizeMonth y m).1 :=
  normalizeMonthFuel_spec m y m h (by omega)

theorem find_first_sorted {l : List ℕ} {c w : ℕ}
    (hs : List.Sorted (fun a b => a ≤ b) l)
    (h : l.find? (fun x => decide (c < x)) = some w) :
    w ∈ l ∧ c < w ∧ ∀ x ∈ l, c < x → w ≤ x := by
  induction l with
  | nil => simp at h
  | cons a t ih =>
      by_cases hc : c < a
      · rw [List.find?_cons_of_pos _ (by simpa using hc)] at h
        have hw : w = a := by simpa using h.symm
        subst hw
        refine ⟨List.mem_cons_self _ _, hc, ?_⟩
        intro x hx _
        rcases List.mem_cons.mp hx with rfl | hx
        · exact le_refl _
        · exact (List.sorted_cons.mp hs).1 x hx
      · rw [List.find?_cons_of_neg _ (by simpa using hc)] at h
        obtain ⟨hw1, hw2, hw3⟩ := ih (List.sorted_cons.mp hs).2 h
        refine ⟨List.mem_cons_of_mem _ hw1, hw2, ?_⟩
        intro x hx hcx
        rcases List.mem_cons.mp hx with rfl | hx
        · exact absurd hcx hc
        · exact hw3 x hx hcx

theorem findNextWeekday_some {ws : List ℕ} {cw w : ℕ}
    (h : findNextWeekday ws cw = some w) :
    w ∈ ws ∧ cw < w ∧ ∀ x ∈ ws, cw < x → w ≤ x := by
  unfold findNextWeekday at h
  have hs : List.Sorted (fun a b => a ≤ b) (ws.insertionSort (fun a b => a ≤ b)) :=
    List.sorted_insertionSort _ _
  obtain ⟨h1, h2, h3⟩ := find_first_sorted hs h
  have hperm := List.perm_insertionSort (fun a b => a ≤ b) ws
  exact ⟨hperm.mem_iff.mp h1, h2, fun x hx hcx => h3 x (hperm.mem_iff.mpr hx) hcx⟩

theorem findNextWeekday_none {ws : List ℕ} {cw : ℕ}
    (h : findNextWeekday ws cw = none) : ∀ x ∈ ws, ¬cw < x := by
  unfold findNextWeekday at h
  intro x hx
  have := List.find?_eq_none.mp h x
    ((List.perm_insertionSort (fun a b => a ≤ b) ws).mem_iff.mpr hx)
  simpa using this

theorem nat_min?_spec {l : List ℕ} {a : ℕ} (h : l.min? = some a) :
    a ∈ l ∧ ∀ b ∈ l, a ≤ b :=
  (List.min?_eq_some_iff (by omega) (fun a b => by omega)
    (fun a b c => by omega)).mp h

/-! ### Branch characterisations of `next_candidate` and `get_next_occurrence` -/

theorem next_candidate_daily {p : RecurrencePattern} (h : p.pattern_type = DAILY)
    (t : DateTime) : p.next_candidate t = some (t.addDays p.interval) := by
  unfold RecurrencePattern.next_candidate
  rw [if_pos h]

theorem next_candidate_custom {p : RecurrencePattern} (h : p.pattern_type = CUSTOM)
    (t : DateTime) : p.next_candidate t = some (t.addDays p.interval) := by
  have h1 : ¬p.pattern_type = DAILY := by rw [h]; decide
  have h2 : ¬p.pattern_type = WEEKLY := by rw [h]; decide
  have h3 : ¬p.pattern_type = MONTHLY := by rw [h]; decide
  unfold RecurrencePattern.next_candidate
  rw [if_neg h1, if_neg h2, if_neg h3, if_pos h]

theorem next_candidate_monthly {p : RecurrencePattern} (h : p.pattern_type = MONTHLY)
    (t : DateTime) :
    p.next_candidate t = some
      ⟨⟨(normalizeMonth t.date.year (t.date.month + p.interval)).1,
        (normalizeMonth t.date.year (t.date.month + p.interval)).2,
        min t.date.day (days_in_month
          (normalizeMonth t.date.year (t.date.month + p.interval)).1
          (normalizeMonth t.date.year (t.date.month + p.interval)).2)⟩,
        t.hour, t.minute, t.second⟩ := by
  have h1 : ¬p.pattern_type = DAILY := by rw [h]; decide
  have h2 : ¬p.pattern_type = WEEKLY := by rw [h]; decide
  unfold RecurrencePattern.next_candidate
  rw [if_neg h1, if_neg h2, if_pos h]

theorem next_candidate_weekly_empty {p : RecurrencePattern}
    (h : p.pattern_type = WEEKLY) (hw : p.weekdays = []) (t : DateTime) :
    p.next_candidate t = some (t.addDays (7 * p.interval)) := by
  have h1 : ¬p.pattern_type = DAILY := by rw [h]; decide
  unfold RecurrencePattern.next_candidate
  rw [if_neg h1, if_pos h, if_pos hw]

theorem next_candidate_weekly_found {p : RecurrencePattern} {w : ℕ}
    (h : p.pattern_type = WEEKLY) (hw : p.weekdays ≠ []) (t : DateTime)
    (hf : findNextWeekday p.weekdays t.weekday = some w) :
    p.next_candidate t = some (t.addDays (w - t.weekday)) := by
  have h1 : ¬p.pattern_type = DAILY := by rw [h]; decide
  unfold RecurrencePattern.next_candidate
  rw [if_neg h1, if_pos h, if_neg hw]
  simp only [hf]

theorem next_candidate_weekly_wrap {p : RecurrencePattern} {w0 : ℕ}
    (h : p.pattern_type = WEEKLY) (hw : p.weekdays ≠ []) (t : DateTime)
    (hf : findNextWeekday p.weekdays t.weekday = none)
    (hm : p.weekdays.min? = some w0) :
    p.next_candidate t = some (t.addDaysZ
      (7 - (t.weekday : ℤ) + ((p.interval : ℤ) - 1) * 7 + (w0 : ℤ))) := by
  have h1 : ¬p.pattern_type = DAILY := by rw [h]; decide
  unfold RecurrencePattern.next_candidate
  rw [if_neg h1, if_pos h, if_neg hw]
  simp only [hf, hm]

theorem next_candidate_unknown {p : RecurrencePattern}
    (h1 : ¬p.pattern_type = DAILY) (h2 : ¬p.pattern_type = WEEKLY)
    (h3 : ¬p.pattern_type = MONTHLY) (h4 : ¬p.pattern_type = CUSTOM)
    (t : DateTime) : p.next_candidate t = none := by
  unfold RecurrencePattern.next_candidate
  rw [if_neg h1, if_neg h2, if_neg h3, if_neg h4]

theorem get_next_none_of_type_none {p : RecurrencePattern}
    (h : p.pattern_type = NONE) (t : DateTime) : p.get_next_occurrence t = none := by
  unfold RecurrencePattern.get_next_occurrence
  rw [if_pos h]

theorem get_next_none_of_pre {p : RecurrencePattern} {e : DateTime}
    (he : p.end_date = some e) (t : DateTime) (h : Date.Le e.date t.date) :
    p.get_next_occurrence t = none := by
  unfold RecurrencePattern.get_next_occurrence
  have hb : p.endPreBlocks t = true := by
    unfold RecurrencePattern.endPreBlocks
    rw [he]
    simpa using h
  rw [hb]
  by_cases h1 : p.pattern_type = NONE
  · rw [if_pos h1]
  · rw [if_neg h1]
    simp

theorem get_next_some_inv {p : RecurrencePattern} {t d : DateTime}
    (h : p.get_next_occurrence t = some d) :
    ¬p.pattern_type = NONE ∧ p.endPreBlocks t = false ∧
      p.next_candidate t = some d ∧ p.endPostBlocks d = false := by
  unfold RecurrencePattern.get_next_occurrence at h
  by_cases h1 : p.pattern_type = NONE
  · rw [if_pos h1] at h
    exact absurd h (by simp)
  · rw [if_neg h1] at h
    cases hb : p.endPreBlocks t
    · rw [hb] at h
      simp only [Bool.false_eq_true, if_false] at h
      cases hc : p.next_candidate t
      · simp only [hc] at h
        simp at h
      · rename_i nd
        simp only [hc] at h
        cases hp : p.endPostBlocks nd
        · rw [hp] at h
          simp only [Bool.false_eq_true, if_false, Option.some.injEq] at h
          subst h
          exact ⟨h1, rfl, rfl, hp⟩
        · rw [hp] at h
          simp at h
    · rw [hb] at h
      simp at h

theorem get_next_eq_candidate {p : RecurrencePattern}
    (hn : ¬p.pattern_type = NONE) (he : p.end_date = none) (t : DateTime) :
    p.get_next_occurrence t = p.next_candidate t := by
  unfold RecurrencePattern.get_next_occurrence
  have hb : p.endPreBlocks t = false := by
    unfold RecurrencePattern.endPreBlocks
    rw [he]
  rw [if_neg hn, hb]
  simp only [Bool.false_eq_true, if_false]
  cases hc : p.next_candidate t
  · simp only [hc]
  · rename_i nd
    have hp : p.endPostBlocks nd = false := by
      unfold RecurrencePattern.endPostBlocks
      rw [he]
    simp only [hc, hp, Bool.false_eq_true, if_false]

theorem get_next_none_of_post {p : RecurrencePattern} {t nd e : DateTime}
    (he : p.end_date = some e) (hc : p.next_candidate t = some nd)
    (h : Date.Lt e.date nd.date) : p.get_next_occurrence t = none := by
  unfold RecurrencePattern.get_next_occurrence
  by_cases h1 : p.pattern_type = NONE
  · rw [if_pos h1]
  · rw [if_neg h1]
    cases hb : p.endPreBlocks t
    · simp only [Bool.false_eq_true, if_false]
      have hp : p.endPostBlocks nd = true := by
        unfold RecurrencePattern.endPostBlocks
        rw [he]
        simpa using h
      simp only [hc, hp, if_true]
    · simp

theorem get_next_some_of_exact {p : RecurrencePattern} {t nd e : DateTime}
    (he : p.end_date = some e) (hc : p.next_candidate t = some nd)
    (hpre : Date.Lt t.date e.date) (hd : nd.date = e.date) :
    p.get_next_occurrence t = some nd := by
  by_cases h1 : p.pattern_type = NONE
  · have hu := next_candidate_unknown (p := p) (by rw [h1]; decide) (by rw [h1]; decide)
      (by rw [h1]; decide) (by rw [h1]; decide) t
    rw [hu] at hc
    exact absurd hc (by simp)
  · unfold RecurrencePattern.get_next_occurrence
    rw [if_neg h1]
    have hb : p.endPreBlocks t = false := by
      unfold RecurrencePattern.endPreBlocks
      rw [he]
      simp only [decide_eq_false_iff_not]
      intro hle
      rcases hle with hlt | heq
      · rcases Date.lt_or_eq_or_gt t.date e.date with hx | hx | hx
        · obtain ⟨y1, m1, d1⟩ := t.date
          obtain ⟨y2, m2, d2⟩ := e.date
          simp only [Date.Lt] at hlt hx
          omega
        · rw [hx] at hlt
          obtain ⟨y2, m2, d2⟩ := e.date
          simp only [Date.Lt] at hlt
          omega
        · obtain ⟨y1, m1, d1⟩ := t.date
          obtain ⟨y2, m2, d2⟩ := e.date
          simp only [Date.Lt] at hlt hpre
          omega
      · rw [heq] at hpre
        obtain ⟨y2, m2, d2⟩ := t.date
        simp only [Date.Lt] at hpre
        omega
    rw [hb]
    simp only [Bool.false_eq_true, if_false]
    have hp : p.endPostBlocks nd = false := by
      unfold RecurrencePattern.endPostBlocks
      rw [he]
      simp only [decide_eq_false_iff_not]
      rw [hd]
      obtain ⟨y2, m2, d2⟩ := e.date
      simp only [Date.Lt]
      omega
    simp only [hc, hp, Bool.false_eq_true, if_false]

theorem DateTime.lt_addDays {t : DateTime} (h : t.date.Valid) {k : ℕ} (hk : 1 ≤ k) :
    DateTime.Lt t (t.addDays k) :=
  Or.inl (Date.Lt_of_toOrd_lt h (Date.valid_addDays h k)
    (by show t.date.toOrd < (t.date.addDays k).toOrd
        rw [Date.toOrd_addDays h k]
        omega))

theorem DateTime.addDaysZ_of_nonneg (t : DateTime) {k : ℤ} (h : 0 ≤ k) :
    t.addDaysZ k = t.addDays k.toNat := by
  unfold DateTime.addDaysZ
  rw [if_pos h]

theorem next_candidate_strict {p : RecurrencePattern} {t nd : DateTime}
    (hv : t.date.Valid) (hi : 1 ≤ p.interval)
    (hc : p.next_candidate t = some nd) : DateTime.Lt t nd := by
  by_cases h1 : p.pattern_type = DAILY
  · rw [next_candidate_daily h1 t] at hc
    obtain rfl := Option.some.inj hc
    exact DateTime.lt_addDays hv hi
  · by_cases h2 : p.pattern_type = WEEKLY
    · by_cases hw : p.weekdays = []
      · rw [next_candidate_weekly_empty h2 hw t] at hc
        obtain rfl := Option.some.inj hc
        exact DateTime.lt_addDays hv (by omega)
      · cases hf : findNextWeekday p.weekdays t.weekday
        · cases hm : p.weekdays.min?
          · exact absurd (List.min?_eq_none_iff.mp hm) hw
          · rename_i w0
            rw [next_candidate_weekly_wrap h2 hw t hf hm] at hc
            have hcw := DateTime.weekday_lt t
            have hnn : (0 : ℤ) ≤
                7 - (t.weekday : ℤ) + ((p.interval : ℤ) - 1) * 7 + (w0 : ℤ) := by
              omega
            rw [DateTime.addDaysZ_of_nonneg t hnn] at hc
            obtain rfl := Option.some.inj hc
            exact DateTime.lt_addDays hv (by omega)
        · rename_i w
          rw [next_candidate_weekly_found h2 hw t hf] at hc
          obtain ⟨_, hlt, _⟩ := findNextWeekday_some hf
          obtain rfl := Option.some.inj hc
          exact DateTime.lt_addDays hv (by omega)
    · by_cases h3 : p.pattern_type = MONTHLY
      · rw [next_candidate_monthly h3 t] at hc
        obtain rfl := Option.some.inj hc
        obtain ⟨hy, hm1, hm2, hd1, hd2⟩ := hv
        obtain ⟨hn1, hn2, heq, hyge⟩ :=
          normalizeMonth_spec (y := t.date.year) (t.date.month + p.interval) (by omega)
        left
        simp only [Date.Lt]
        omega
      · by_cases h4 : p.pattern_type = CUSTOM
        · rw [next_candidate_custom h4 t] at hc
          obtain rfl := Option.some.inj hc
          exact DateTime.lt_addDays hv hi
        · rw [next_candidate_unknown h1 h2 h3 h4 t] at hc
          exact absurd hc (by simp)

/-! ### Claims -/

/-- C7: for a Daily pattern with interval 1 and no end date blocking it,
the next occurrence from any date-time `D` is `D` plus one day, across
month and year boundaries: from 2024-02-28 the result is 2024-02-29 (leap
year) and from 2023-02-28 it is 2023-03-01. -/
theorem claim_C7 (p : RecurrencePattern) (D : DateTime)
    (ht : p.pattern_type = DAILY) (hi : p.interval = 1) (he : p.end_date = none) :
    p.get_next_occurrence D = some (D.addDays 1) ∧
    RecurrencePattern.get_next_occurrence ⟨DAILY, 1, [], none, none⟩
      ⟨⟨2024, 2, 28⟩, 0, 0, 0⟩ = some ⟨⟨2024, 2, 29⟩, 0, 0, 0⟩ ∧
    RecurrencePattern.get_next_occurrence ⟨DAILY, 1, [], none, none⟩
      ⟨⟨2023, 2, 28⟩, 0, 0, 0⟩ = some ⟨⟨2023, 3, 1⟩, 0, 0, 0⟩ := by
  refine ⟨?_, by decide, by decide⟩
  rw [get_next_eq_candidate (by rw [ht]; decide) he D, next_candidate_daily ht D, hi]

/-- Witness for C7: the theorem applied to a concrete pattern and a
year-boundary date. -/
theorem claim_C7_witness :
    RecurrencePattern.get_next_occurrence ⟨DAILY, 1, [], none, none⟩
        ⟨⟨2024, 12, 31⟩, 8, 30, 0⟩ =
      some (DateTime.addDays ⟨⟨2024, 12, 31⟩, 8, 30, 0⟩ 1) ∧
    DateTime.addDays ⟨⟨2024, 12, 31⟩, 8, 30, 0⟩ 1 = ⟨⟨2025, 1, 1⟩, 8, 30, 0⟩ :=
  ⟨(claim_C7 ⟨DAILY, 1, [], none, none⟩ ⟨⟨2024, 12, 31⟩, 8, 30, 0⟩ rfl rfl rfl).1,
    by decide⟩

/-- C8: a Custom pattern behaves exactly like a Daily pattern with the
same remaining fields, for every from-date: the interval is interpreted as
days in both. -/
theorem claim_C8 (i : ℕ) (wd : List ℕ) (ed : Option DateTime) (occ : Option ℕ)
    (fromDate : DateTime) :
    RecurrencePattern.get_next_occurrence ⟨CUSTOM, i, wd, ed, occ⟩ fromDate =
      RecurrencePattern.get_next_occurrence ⟨DAILY, i, wd, ed, occ⟩ fromDate := by
  have hcand : RecurrencePattern.next_candidate ⟨CUSTOM, i, wd, ed, occ⟩ fromDate =
      RecurrencePattern.next_candidate ⟨DAILY, i, wd, ed, occ⟩ fromDate :=
    (next_candidate_custom (p := ⟨CUSTOM, i, wd, ed, occ⟩) rfl fromDate).trans
      ((next_candidate_daily (p := ⟨DAILY, i, wd, ed, occ⟩) rfl fromDate).symm)
  unfold RecurrencePattern.get_next_occurrence
  have hne1 : ¬((⟨CUSTOM, i, wd, ed, occ⟩ : RecurrencePattern).pattern_type = NONE) :=
    fun hh => (by decide : ¬(CUSTOM = NONE)) hh
  have hne2 : ¬((⟨DAILY, i, wd, ed, occ⟩ : RecurrencePattern).pattern_type = NONE) :=
    fun hh => (by decide : ¬(DAILY = NONE)) hh
  rw [if_neg hne1, if_neg hne2]
  have hpre : RecurrencePattern.endPreBlocks ⟨CUSTOM, i, wd, ed, occ⟩ fromDate =
      RecurrencePattern.endPreBlocks ⟨DAILY, i, wd, ed, occ⟩ fromDate := rfl
  have hpost : RecurrencePattern.endPostBlocks (⟨CUSTOM, i, wd, ed, occ⟩ : RecurrencePattern) =
      RecurrencePattern.endPostBlocks ⟨DAILY, i, wd, ed, occ⟩ := rfl
  rw [hpre, hcand, hpost]

/-- C2: with an end date E set, once the computed candidate's date
component is strictly after E's, the function returns none; and a returned
date-time never has its date component after E's. -/
theorem claim_C2 (p : RecurrencePattern) (fromDate E : DateTime)
    (he : p.end_date = some E) :
    (∀ c, p.next_candidate fromDate = some c → Date.Lt E.date c.date →
        p.get_next_occurrence fromDate = none) ∧
    (∀ d, p.get_next_occurrence fromDate = some d → ¬Date.Lt E.date d.date) := by
  constructor
  · intro c hc hlt
    exact get_next_none_of_post he hc hlt
  · intro d hd
    obtain ⟨-, -, -, hpost⟩ := get_next_some_inv hd
    unfold RecurrencePattern.endPostBlocks at hpost
    rw [he] at hpost
    simpa using hpost

/-- Witness for C2: a Daily pattern with interval 2 and end date
2024-01-05; from 2024-01-04 the candidate 2024-01-06 falls strictly after
the end date and the result is none. -/
theorem claim_C2_witness :
    RecurrencePattern.get_next_occurrence
        ⟨DAILY, 2, [], some ⟨⟨2024, 1, 5⟩, 0, 0, 0⟩, none⟩
        ⟨⟨2024, 1, 4⟩, 0, 0, 0⟩ = none :=
  (claim_C2 ⟨DAILY, 2, [], some ⟨⟨2024, 1, 5⟩, 0, 0, 0⟩, none⟩
      ⟨⟨2024, 1, 4⟩, 0, 0, 0⟩ ⟨⟨2024, 1, 5⟩, 0, 0, 0⟩ rfl).1
    ⟨⟨2024, 1, 6⟩, 0, 0, 0⟩ (by decide) (by decide)

/-- C6: handle_completed_task returns false and performs no insertion when
the task has no recurrence dict, when the pattern kind is None, when the
deadline is missing, and when get_next_occurrence from the deadline
returns none (which covers unrecognised pattern kinds). -/
theorem claim_C6 (task : Task) :
    (task.recurrence = none → handle_completed_task task = (false, none)) ∧
    (∀ rd, task.recurrence = some rd → rd.pattern_type = NONE →
        handle_completed_task task = (false, none)) ∧
    (task.deadline = none → handle_completed_task task = (false, none)) ∧
    (∀ dl, task.deadline = some dl →
        (RecurrencePattern.from_dict task.recurrence).get_next_occurrence dl = none →
        handle_completed_task task = (false, none)) := by
  refine ⟨?_, ?_, ?_, ?_⟩
  · intro h
    unfold handle_completed_task
    simp only [h]
    rfl
  · intro rd hr hn
    unfold handle_completed_task
    split
    · rfl
    · rename_i hcond
      simp only [hr] at hcond
      rw [hn] at hcond
      exact absurd (by decide) hcond
  · intro h
    unfold handle_completed_task
    split
    · rfl
    · simp only [h]
  · intro dl hd hnone
    unfold handle_completed_task
    split
    · rfl
    · simp only [hd, hnone]

/-- Witness for C6: a completed task whose pattern kind is None yields no
successor and no insertion. -/
theorem claim_C6_witness :
    handle_completed_task
      { deadline := some ⟨⟨2024, 5, 1⟩, 12, 0, 0⟩
        status := "Completed"
        completed := true
        reminder_offset := none
        reminder_time := none
        recurrence := some ⟨NONE, 1, [], none, none⟩
        others := [] } = (false, none) :=
  (claim_C6 _).2.1 ⟨NONE, 1, [], none, none⟩ rfl rfl

/-- C1 counterexample: with a Daily pattern whose end date is 2024-01-02,
from 2024-01-01 the computed candidate falls exactly on the end date's
date, yet get_next_occurrence returns it instead of the "no further
occurrence" the claim requires. -/
theorem claim_C1_counterexample :
    RecurrencePattern.next_candidate
        ⟨DAILY, 1, [], some ⟨⟨2024, 1, 2⟩, 0, 0, 0⟩, none⟩
        ⟨⟨2024, 1, 1⟩, 12, 0, 0⟩ = some ⟨⟨2024, 1, 2⟩, 12, 0, 0⟩ ∧
    (⟨2024, 1, 2⟩ : Date) = (⟨⟨2024, 1, 2⟩, 0, 0, 0⟩ : DateTime).date ∧
    RecurrencePattern.get_next_occurrence
        ⟨DAILY, 1, [], some ⟨⟨2024, 1, 2⟩, 0, 0, 0⟩, none⟩
        ⟨⟨2024, 1, 1⟩, 12, 0, 0⟩ = some ⟨⟨2024, 1, 2⟩, 12, 0, 0⟩ :=
  ⟨by decide, by decide, by decide⟩

/-- C1 (amended): get_next_occurrence returns a date-time strictly after
from_date, or none; none is returned when the kind is None, when from_date
already falls on or after the end date's date, or when the computed
candidate falls strictly after the end date's date — but a candidate
falling exactly on the end date's date is returned, not suppressed. -/
theorem claim_C1_amended (p : RecurrencePattern) (fromDate : DateTime)
    (hv : fromDate.date.Valid) (hi : 1 ≤ p.interval) :
    (p.pattern_type = NONE → p.get_next_occurrence fromDate = none) ∧
    (∀ e, p.end_date = some e → Date.Le e.date fromDate.date →
        p.get_next_occurrence fromDate = none) ∧
    (∀ e c, p.end_date = some e → p.next_candidate fromDate = some c →
        Date.Lt e.date c.date → p.get_next_occurrence fromDate = none) ∧
    (∀ e c, p.end_date = some e → p.next_candidate fromDate = some c →
        Date.Lt fromDate.date e.date → c.date = e.date →
        p.get_next_occurrence fromDate = some c) ∧
    (∀ d, p.get_next_occurrence fromDate = some d → DateTime.Lt fromDate d) := by
  refine ⟨fun h => get_next_none_of_type_none h fromDate,
    fun e he hle => get_next_none_of_pre he fromDate hle,
    fun e c he hc hlt => get_next_none_of_post he hc hlt,
    fun e c he hc hpre hd => get_next_some_of_exact he hc hpre hd,
    fun d hd => ?_⟩
  obtain ⟨-, -, hc, -⟩ := get_next_some_inv hd
  exact next_candidate_strict hv hi hc

/-- Witness for C1: the amended theorem applied to a Daily pattern with
end date 2024-03-31 from 2024-03-30; the candidate lands exactly on the
end date and is returned, strictly after the reference date-time. -/
theorem claim_C1_witness :
    RecurrencePattern.get_next_occurrence
        ⟨DAILY, 1, [], some ⟨⟨2024, 3, 31⟩, 0, 0, 0⟩, none⟩
        ⟨⟨2024, 3, 30⟩, 6, 0, 0⟩ = some ⟨⟨2024, 3, 31⟩, 6, 0, 0⟩ ∧
    DateTime.Lt ⟨⟨2024, 3, 30⟩, 6, 0, 0⟩ ⟨⟨2024, 3, 31⟩, 6, 0, 0⟩ := by
  constructor
  · exact (claim_C1_amended ⟨DAILY, 1, [], some ⟨⟨2024, 3, 31⟩, 0, 0, 0⟩, none⟩
        ⟨⟨2024, 3, 30⟩, 6, 0, 0⟩ (by decide) (by decide)).2.2.2.1
      ⟨⟨2024, 3, 31⟩, 0, 0, 0⟩ ⟨⟨2024, 3, 31⟩, 6, 0, 0⟩ rfl (by decide) (by decide) (by decide)
  · exact (claim_C1_amended ⟨DAILY, 1, [], some ⟨⟨2024, 3, 31⟩, 0, 0, 0⟩, none⟩
        ⟨⟨2024, 3, 30⟩, 6, 0, 0⟩ (by decide) (by decide)).2.2.2.2
      ⟨⟨2024, 3, 31⟩, 6, 0, 0⟩ (by decide)

/-- C9 counterexample: get_next_occurrence with weekday set {7} (an
out-of-range value) from Wednesday 2024-01-03 yields Monday 2024-01-08,
while the set without the malformed value yields Wednesday 2024-01-10: the
malformed value is matched and changes the returned date. -/
theorem claim_C9_counterexample :
    RecurrencePattern.get_next_occurrence ⟨WEEKLY, 1, [7], none, none⟩
        ⟨⟨2024, 1, 3⟩, 0, 0, 0⟩ = some ⟨⟨2024, 1, 8⟩, 0, 0, 0⟩ ∧
    RecurrencePattern.get_next_occurrence ⟨WEEKLY, 1, [], none, none⟩
        ⟨⟨2024, 1, 3⟩, 0, 0, 0⟩ = some ⟨⟨2024, 1, 10⟩, 0, 0, 0⟩ ∧
    (⟨⟨2024, 1, 8⟩, 0, 0, 0⟩ : DateTime) ≠ ⟨⟨2024, 1, 10⟩, 0, 0, 0⟩ :=
  ⟨by decide, by decide, by decide⟩

/-- C9 (amended): get_next_occurrence is a total function of its inputs,
but malformed weekday values are compared and matched like any others: a
weekday entry strictly greater than the current weekday is selected by the
within-week scan even when it is outside 0..6, and its presence can change
the returned date. -/
theorem claim_C9_amended (p : RecurrencePattern) (t : DateTime) (w : ℕ)
    (ht : p.pattern_type = WEEKLY) (hw : p.weekdays ≠ [])
    (hf : findNextWeekday p.weekdays t.weekday = some w) (hmal : 6 < w) :
    w ∈ p.weekdays ∧
    p.next_candidate t = some (t.addDays (w - t.weekday)) ∧
    RecurrencePattern.get_next_occurrence ⟨WEEKLY, 1, [7], none, none⟩
        ⟨⟨2024, 1, 3⟩, 0, 0, 0⟩ ≠
      RecurrencePattern.get_next_occurrence ⟨WEEKLY, 1, [], none, none⟩
        ⟨⟨2024, 1, 3⟩, 0, 0, 0⟩ :=
  ⟨(findNextWeekday_some hf).1, next_candidate_weekly_found ht hw t hf, by decide⟩

/-- Witness for C9: the amended theorem applied to the weekday set {7}
from Wednesday 2024-01-03. -/
theorem claim_C9_witness :
    (7 : ℕ) ∈ [(7 : ℕ)] ∧
    RecurrencePattern.next_candidate ⟨WEEKLY, 1, [7], none, none⟩
        ⟨⟨2024, 1, 3⟩, 0, 0, 0⟩ =
      some (DateTime.addDays ⟨⟨2024, 1, 3⟩, 0, 0, 0⟩
        (7 - DateTime.weekday ⟨⟨2024, 1, 3⟩, 0, 0, 0⟩)) ∧
    RecurrencePattern.get_next_occurrence ⟨WEEKLY, 1, [7], none, none⟩
        ⟨⟨2024, 1, 3⟩, 0, 0, 0⟩ ≠
      RecurrencePattern.get_next_occurrence ⟨WEEKLY, 1, [], none, none⟩
        ⟨⟨2024, 1, 3⟩, 0, 0, 0⟩ :=
  claim_C9_amended ⟨WEEKLY, 1, [7], none, none⟩ ⟨⟨2024, 1, 3⟩, 0, 0, 0⟩ 7
    rfl (by decide) (by decide) (by decide)

/-- C3: for a Weekly pattern with a non-empty weekday set, positive
interval and no end date, the next occurrence advances to the smallest
weekday in the set strictly greater than the current weekday within the
current week when one exists; otherwise it advances 7*interval days past
the most recent week boundary and lands on the smallest weekday in the
set.  With weekdays {Mon, Fri} and interval 1, Wednesday 2024-01-03 goes
to Friday 2024-01-05 and Friday 2024-01-05 to Monday 2024-01-08. -/
theorem claim_C3 (p : RecurrencePattern) (fromDate : DateTime)
    (ht : p.pattern_type = WEEKLY) (hne : p.weekdays ≠ [])
    (hi : 1 ≤ p.interval) (he : p.end_date = none) (hv : fromDate.date.Valid)
    (hrange : ∀ x ∈ p.weekdays, x ≤ 6) :
    (∀ w, w ∈ p.weekdays → fromDate.weekday < w →
        (∀ x ∈ p.weekdays, fromDate.weekday < x → w ≤ x) →
        p.get_next_occurrence fromDate =
          some (fromDate.addDays (w - fromDate.weekday)) ∧
        (fromDate.addDays (w - fromDate.weekday)).weekday = w) ∧
    ((∀ x ∈ p.weekdays, ¬fromDate.weekday < x) →
      ∀ w0, p.weekdays.min? = some w0 →
        p.get_next_occurrence fromDate =
          some (fromDate.addDays (7 * p.interval + w0 - fromDate.weekday)) ∧
        (fromDate.addDays (7 * p.interval + w0 - fromDate.weekday)).date.toOrd +
            fromDate.weekday = fromDate.date.toOrd + 7 * p.interval + w0 ∧
        (fromDate.addDays (7 * p.interval + w0 - fromDate.weekday)).weekday = w0) ∧
    RecurrencePattern.get_next_occurrence ⟨WEEKLY, 1, [0, 4], none, none⟩
        ⟨⟨2024, 1, 3⟩, 9, 0, 0⟩ = some ⟨⟨2024, 1, 5⟩, 9, 0, 0⟩ ∧
    RecurrencePattern.get_next_occurrence ⟨WEEKLY, 1, [0, 4], none, none⟩
        ⟨⟨2024, 1, 5⟩, 9, 0, 0⟩ = some ⟨⟨2024, 1, 8⟩, 9, 0, 0⟩ := by
  have hnn : ¬p.pattern_type = NONE := by rw [ht]; decide
  refine ⟨?_, ?_, by decide, by decide⟩
  · intro w hwmem hwgt hwmin
    cases hf : findNextWeekday p.weekdays fromDate.weekday with
    | none => exact absurd hwgt (findNextWeekday_none hf w hwmem)
    | some w1 =>
        obtain ⟨hmem1, hgt1, hmin1⟩ := findNextWeekday_some hf
        have hww : w1 = w := le_antisymm (hmin1 w hwmem hwgt) (hwmin w1 hmem1 hgt1)
        rw [hww] at hf
        have h6 := hrange w hwmem
        constructor
        · rw [get_next_eq_candidate hnn he fromDate]
          exact next_candidate_weekly_found ht hne fromDate hf
        · rw [DateTime.weekday_addDays hv]
          omega
  · intro hall w0 hm0
    cases hf : findNextWeekday p.weekdays fromDate.weekday with
    | some w1 =>
        obtain ⟨hmem1, hgt1, -⟩ := findNextWeekday_some hf
        exact absurd hgt1 (hall w1 hmem1)
    | none =>
        obtain ⟨hmem0, hmin0⟩ := nat_min?_spec hm0
        have hcw := DateTime.weekday_lt fromDate
        have h60 := hrange w0 hmem0
        have hnn2 : (0 : ℤ) ≤
            7 - (fromDate.weekday : ℤ) + ((p.interval : ℤ) - 1) * 7 + (w0 : ℤ) := by
          omega
        have hcand := next_candidate_weekly_wrap ht hne fromDate hf hm0
        rw [DateTime.addDaysZ_of_nonneg fromDate hnn2] at hcand
        have htn : (7 - (fromDate.weekday : ℤ) + ((p.interval : ℤ) - 1) * 7 +
            (w0 : ℤ)).toNat = 7 * p.interval + w0 - fromDate.weekday := by
          omega
        rw [htn] at hcand
        refine ⟨?_, ?_, ?_⟩
        · rw [get_next_eq_candidate hnn he fromDate]
          exact hcand
        · show (fromDate.date.addDays (7 * p.interval + w0 - fromDate.weekday)).toOrd +
              fromDate.weekday = fromDate.date.toOrd + 7 * p.interval + w0
          rw [Date.toOrd_addDays hv]
          omega
        · rw [DateTime.weekday_addDays hv]
          omega

/-- Witness for C3: with weekdays {Mon, Fri} and interval 1, from
Wednesday 2024-01-03 (weekday 2) the theorem yields Friday 2024-01-05. -/
theorem claim_C3_witness :
    RecurrencePattern.get_next_occurrence ⟨WEEKLY, 1, [0, 4], none, none⟩
        ⟨⟨2024, 1, 3⟩, 9, 0, 0⟩ =
      some (DateTime.addDays ⟨⟨2024, 1, 3⟩, 9, 0, 0⟩
        (4 - DateTime.weekday ⟨⟨2024, 1, 3⟩, 9, 0, 0⟩)) ∧
    (DateTime.addDays ⟨⟨2024, 1, 3⟩, 9, 0, 0⟩
        (4 - DateTime.weekday ⟨⟨2024, 1, 3⟩, 9, 0, 0⟩)).weekday = 4 :=
  (claim_C3 ⟨WEEKLY, 1, [0, 4], none, none⟩ ⟨⟨2024, 1, 3⟩, 9, 0, 0⟩ rfl (by decide)
      (by decide) rfl (by decide) (by decide)).1 4 (by decide) (by decide) (by decide)

/-- C4: a Monthly pattern with positive interval and no end date moves to
the same day of month, interval months ahead (with correct year carry),
clamping to the last valid day of the target month; with interval 1,
2024-01-31 goes to 2024-02-29 (leap year) and 2023-01-31 to 2023-02-28. -/
theorem claim_C4 (p : RecurrencePattern) (fromDate : DateTime)
    (ht : p.pattern_type = MONTHLY) (hi : 1 ≤ p.interval)
    (he : p.end_date = none) (hv : fromDate.date.Valid) :
    (∃ y m,
      normalizeMonth fromDate.date.year (fromDate.date.month + p.interval) = (y, m) ∧
      1 ≤ m ∧ m ≤ 12 ∧
      y * 12 + m = fromDate.date.year * 12 + (fromDate.date.month + p.interval) ∧
      p.get_next_occurrence fromDate = some
        ⟨⟨y, m, min fromDate.date.day (days_in_month y m)⟩,
          fromDate.hour, fromDate.minute, fromDate.second⟩) ∧
    RecurrencePattern.get_next_occurrence ⟨MONTHLY, 1, [], none, none⟩
        ⟨⟨2024, 1, 31⟩, 0, 0, 0⟩ = some ⟨⟨2024, 2, 29⟩, 0, 0, 0⟩ ∧
    RecurrencePattern.get_next_occurrence ⟨MONTHLY, 1, [], none, none⟩
        ⟨⟨2023, 1, 31⟩, 0, 0, 0⟩ = some ⟨⟨2023, 2, 28⟩, 0, 0, 0⟩ := by
  refine ⟨?_, by decide, by decide⟩
  obtain ⟨hy1, hm1, hd1, hd2, hd3⟩ := hv
  obtain ⟨h1, h2, h3, h4⟩ := normalizeMonth_spec (y := fromDate.date.year)
    (fromDate.date.month + p.interval) (by omega)
  refine ⟨(normalizeMonth fromDate.date.year (fromDate.date.month + p.interval)).1,
    (normalizeMonth fromDate.date.year (fromDate.date.month + p.interval)).2,
    rfl, h1, h2, h3, ?_⟩
  rw [get_next_eq_candidate (by rw [ht]; decide) he fromDate]
  exact next_candidate_monthly ht fromDate

/-- Witness for C4: the theorem applied with interval 1 from 2024-01-31. -/
theorem claim_C4_witness :
    normalizeMonth 2024 2 = (2024, 2) ∧
    RecurrencePattern.get_next_occurrence ⟨MONTHLY, 1, [], none, none⟩
        ⟨⟨2024, 1, 31⟩, 0, 0, 0⟩ =
      some ⟨⟨2024, 2, min 31 (days_in_month 2024 2)⟩, 0, 0, 0⟩ := by
  obtain ⟨y, m, hnorm, hb1, hb2, hsum, hres⟩ :=
    (claim_C4 ⟨MONTHLY, 1, [], none, none⟩ ⟨⟨2024, 1, 31⟩, 0, 0, 0⟩ rfl
      (by decide) rfl (by decide)).1
  simp only [] at hsum
  norm_num at hsum
  have hy : y = 2024 := by omega
  have hm : m = 2 := by omega
  rw [hy, hm] at hnorm hres
  exact ⟨hnorm, hres⟩

/-- C5: when a completed task's pattern yields a next occurrence,
handle_completed_task hands exactly one successor to the task store; the
successor copies all fields, with the deadline overwritten by the next
occurrence, status reset to "Not Started", completed reset to false, the
reminder time recomputed from the reminder offset against the new deadline
("1 day before" gives the new deadline minus one day), and a present
non-zero remaining-occurrence count decremented by one (decrementing to
zero does not suppress the successor). -/
theorem claim_C5 (task : Task) (rd : RecurrenceDict) (dl nd : DateTime)
    (hr : task.recurrence = some rd) (hn : ¬rd.pattern_type = NONE)
    (hd : task.deadline = some dl)
    (hnext : (RecurrencePattern.from_dict (some rd)).get_next_occurrence dl = some nd) :
    ∃ t', handle_completed_task task = (true, some t') ∧
      t'.deadline = some nd ∧
      t'.status = "Not Started" ∧
      t'.completed = false ∧
      t'.reminder_offset = task.reminder_offset ∧
      t'.others = task.others ∧
      (task.reminder_offset = some "1 day before" →
        t'.reminder_time = some (nd.subDays 1)) ∧
      (∀ n, rd.occurrences = some n → n ≠ 0 →
        t'.recurrence = some { rd with occurrences := some (n - 1) }) ∧
      (rd.occurrences = some 1 →
        t'.recurrence = some { rd with occurrences := some 0 }) ∧
      (rd.occurrences = none → t'.recurrence = some rd) := by
  unfold handle_completed_task
  simp only [hr]
  rw [if_neg (show ¬(decide (rd.pattern_type = NONE) = true) by simpa using hn)]
  simp only [hd, hnext]
  refine ⟨_, rfl, rfl, rfl, rfl, rfl, rfl, ?_, ?_, ?_, ?_⟩
  · intro hro
    show newReminderTime task nd = some (nd.subDays 1)
    unfold newReminderTime
    rw [hro]
    rfl
  · intro n hocc hne0
    show (match (RecurrencePattern.from_dict (some rd)).occurrences with
      | some n => if n ≠ 0 then
          (some rd).map (fun rd => { rd with occurrences := some (n - 1) })
        else some rd
      | none => some rd) = some { rd with occurrences := some (n - 1) }
    have hoc : (RecurrencePattern.from_dict (some rd)).occurrences = rd.occurrences := rfl
    rw [hoc]
    simp only [hocc]
    rw [if_pos hne0]
    rfl
  · intro hocc
    show (match (RecurrencePattern.from_dict (some rd)).occurrences with
      | some n => if n ≠ 0 then
          (some rd).map (fun rd => { rd with occurrences := some (n - 1) })
        else some rd
      | none => some rd) = some { rd with occurrences := some 0 }
    have hoc : (RecurrencePattern.from_dict (some rd)).occurrences = rd.occurrences := rfl
    rw [hoc]
    simp only [hocc]
    rw [if_pos (by decide : (1 : ℕ) ≠ 0)]
    rfl
  · intro hocc
    show (match (RecurrencePattern.from_dict (some rd)).occurrences with
      | some n => if n ≠ 0 then
          (some rd).map (fun rd => { rd with occurrences := some (n - 1) })
        else some rd
      | none => some rd) = some rd
    have hoc : (RecurrencePattern.from_dict (some rd)).occurrences = rd.occurrences := rfl
    rw [hoc]
    simp only [hocc]

/-- Witness for C5: a concrete daily task with a "1 day before" reminder
and 3 remaining occurrences. -/
theorem claim_C5_witness :
    ∃ t', handle_completed_task
      { deadline := some ⟨⟨2024, 5, 1⟩, 12, 0, 0⟩
        status := "Completed"
        completed := true
        reminder_offset := some "1 day before"
        reminder_time := some ⟨⟨2024, 4, 30⟩, 12, 0, 0⟩
        recurrence := some ⟨DAILY, 1, [], none, some 3⟩
        others := [("title", "x")] } = (true, some t') ∧
      t'.deadline = some ⟨⟨2024, 5, 2⟩, 12, 0, 0⟩ ∧
      t'.status = "Not Started" ∧
      t'.completed = false ∧
      t'.reminder_time = some (DateTime.subDays ⟨⟨2024, 5, 2⟩, 12, 0, 0⟩ 1) ∧
      t'.recurrence = some ⟨DAILY, 1, [], none, some 2⟩ := by
  obtain ⟨t', h1, h2, h3, h4, h5, h6, h7, h8, h9, h10⟩ :=
    claim_C5
      { deadline := some ⟨⟨2024, 5, 1⟩, 12, 0, 0⟩
        status := "Completed"
        completed := true
        reminder_offset := some "1 day before"
        reminder_time := some ⟨⟨2024, 4, 30⟩, 12, 0, 0⟩
        recurrence := some ⟨DAILY, 1, [], none, some 3⟩
        others := [("title", "x")] }
      ⟨DAILY, 1, [], none, some 3⟩ ⟨⟨2024, 5, 1⟩, 12, 0, 0⟩ ⟨⟨2024, 5, 2⟩, 12, 0, 0⟩
      rfl (by decide) rfl (by decide)
  exact ⟨t', h1, h2, h3, h4, h7 rfl, h8 3 rfl (by decide)⟩

/-! ### Serialization round trip -/

theorem readDigit_digitChar (n : ℕ) : readDigit (digitChar n) = some (n % 10) := by
  unfold digitChar
  have h10 : n % 10 = 0 ∨ n % 10 = 1 ∨ n % 10 = 2 ∨ n % 10 = 3 ∨ n % 10 = 4 ∨
      n % 10 = 5 ∨ n % 10 = 6 ∨ n % 10 = 7 ∨ n % 10 = 8 ∨ n % 10 = 9 := by
    omega
  rcases h10 with h | h | h | h | h | h | h | h | h | h <;> rw [h] <;> rfl

theorem read2_digitChar (a b : ℕ) :
    read2 (digitChar a) (digitChar b) = some (a % 10 * 10 + b % 10) := by
  unfold read2
  rw [readDigit_digitChar, readDigit_digitChar]

theorem isoformat_ne_empty (t : DateTime) : t.isoformat ≠ "" := by
  intro h
  unfold DateTime.isoformat at h
  have hl := congrArg String.data h
  have h0 : ("" : String).data = [] := rfl
  rw [h0] at hl
  simp only [pad4, pad2, List.cons_append, List.nil_append] at hl
  exact absurd hl (List.cons_ne_nil _ _)

theorem fromisoformat_isoformat {t : DateTime} (hv : t.Valid)
    (hy : t.date.year ≤ 9999) : fromisoformat t.isoformat = some t := by
  obtain ⟨⟨y, m, d⟩, hh, mi, ss⟩ := t
  obtain ⟨⟨hy1, hm1, hm2, hd1, hd2⟩, hhh, hmm, hss⟩ := hv
  have hy9 : y ≤ 9999 := hy
  have hm12 : m ≤ 12 := hm2
  have hd31 : d ≤ 31 := le_trans hd2 (days_in_month_le y m)
  have hh24 : hh < 24 := hhh
  have hmm60 : mi < 60 := hmm
  have hss60 : ss < 60 := hss
  show parseISO (pad4 y ++ ['-'] ++ pad2 m ++ ['-'] ++ pad2 d ++ ['T'] ++
    pad2 hh ++ [':'] ++ pad2 mi ++ [':'] ++ pad2 ss) = some ⟨⟨y, m, d⟩, hh, mi, ss⟩
  simp only [pad4, pad2, List.cons_append, List.nil_append]
  simp only [parseISO]
  rw [if_pos (show True ∧ True ∧ True ∧ True ∧ True from
    ⟨trivial, trivial, trivial, trivial, trivial⟩)]
  simp only [read2_digitChar]
  have e1 : (y / 1000 % 10 * 10 + y / 100 % 10) * 100 +
      (y / 10 % 10 * 10 + y % 10) = y := by omega
  have e2 : m / 10 % 10 * 10 + m % 10 = m := by omega
  have e3 : d / 10 % 10 * 10 + d % 10 = d := by omega
  have e4 : hh / 10 % 10 * 10 + hh % 10 = hh := by omega
  have e5 : mi / 10 % 10 * 10 + mi % 10 = mi := by omega
  have e6 : ss / 10 % 10 * 10 + ss % 10 = ss := by omega
  rw [e1, e2, e3, e4, e5, e6]
  rw [if_pos (show (DateTime.mk ⟨y, m, d⟩ hh mi ss).Valid ∧ y ≤ 9999 from
    ⟨⟨⟨hy1, hm1, hm2, hd1, hd2⟩, hhh, hmm, hss⟩, hy9⟩)]

/-- C10: serializing a recurrence pattern with to_dict and reading it back
with from_dict reconstructs every field, whenever the end date is absent
or is a valid datetime value (as every Python datetime is). -/
theorem claim_C10 (p : RecurrencePattern)
    (hval : ∀ e, p.end_date = some e → e.Valid ∧ e.date.year ≤ 9999) :
    RecurrencePattern.from_dict (some p.to_dict) = p := by
  obtain ⟨pt, i, wd, ed, occ⟩ := p
  cases ed with
  | none => rfl
  | some e =>
      obtain ⟨hv, hy⟩ := hval e rfl
      show RecurrencePattern.from_dict (some
        ⟨pt, i, wd, some e.isoformat, occ⟩) = ⟨pt, i, wd, some e, occ⟩
      unfold RecurrencePattern.from_dict
      simp only [if_neg (isoformat_ne_empty e), fromisoformat_isoformat hv hy]

/-- Witness for C10: a concrete weekly pattern with an end date makes the
round trip unchanged. -/
theorem claim_C10_witness :
    RecurrencePattern.from_dict (some (RecurrencePattern.to_dict
        ⟨WEEKLY, 2, [0, 4], some ⟨⟨2024, 5, 17⟩, 9, 30, 5⟩, some 3⟩)) =
      ⟨WEEKLY, 2, [0, 4], some ⟨⟨2024, 5, 17⟩, 9, 30, 5⟩, some 3⟩ :=
  claim_C10 ⟨WEEKLY, 2, [0, 4], some ⟨⟨2024, 5, 17⟩, 9, 30, 5⟩, some 3⟩
    (fun e he => by
      injection he with h
      subst h
      exact ⟨by decide, by decide⟩)

end TaskApp
